import Mathlib

/-!
# Verification of ImageToHeicConverter

A shallow embedding in Lean 4 of `src/ImageToHeicConverter.cpp`, a Windows
batch image converter (images ↔ HEIC) built on WIC.  Pure logic (extension
filtering, argument parsing, exit-code control flow, the per-task finalize
protocol, HRESULT classification) is translated directly from the source.
The concurrent worker pool (an atomic `fetch_add` cursor plus two atomic
counters) is modelled as a small-step transition system over explicit
schedules, so that the queue-exhaustion and counter invariants can be proved
for every interleaving.

Machine floats (`quality`) are modelled over `ℚ`; every concrete value the
claims mention (0, 1, 1.5, -1) is exactly representable in IEEE single
precision and the operations on them (division by 100, comparisons against
0 and 1) are exact, so the rational model agrees with the float code there.
Wide strings are modelled as lists of UTF-16 code units (`List Nat`);
`::tolower` is modelled on the ASCII range, which covers every extension
and flag the program compares against.
-/

namespace ImageToHeic

/-! ## Characters and path strings

A `wchar_t` string is modelled as its list of UTF-16 code units, `List Nat`
(the paths the program handles live in the BMP, one unit per character).
`wstr` converts a Lean string literal into that representation. -/

/-- A wide string: its code units. -/
abbrev WStr := List Nat

/-- Code units of a string literal. -/
def wstr (s : String) : WStr := s.data.map Char.toNat

/-- ASCII `::tolower` as used by `std::transform(..., ::tolower)` in the
source (lines 163 and 281): maps `A`–`Z` (65–90) to `a`–`z` (97–122),
leaves the rest. -/
def toLowerChar (c : Nat) : Nat :=
  if 65 ≤ c ∧ c ≤ 90 then c + 32 else c

/-- Lowercase an entire wide string (`std::transform` over the string). -/
def lowerStr (s : WStr) : WStr := s.map toLowerChar

/-- Path separators recognised by the Win32 path helpers:
`\` (92), `/` (47), `:` (58). -/
def isSep (c : Nat) : Bool := c = 92 || c = 47 || c = 58

/-- `PathFindFileNameW`: the part of the path after the last separator. -/
def fileNamePart (s : WStr) : WStr :=
  (s.reverse.takeWhile (fun c => ¬ isSep c)).reverse

/-- `PathFindExtensionW`: the last `.` (46) of the file-name part of the
path together with everything after it; the empty string when the file
name contains no dot. -/
def findExtension (s : WStr) : WStr :=
  let fn := fileNamePart s
  let afterDot := fn.reverse.takeWhile (fun c => c ≠ 46)
  if afterDot.length = fn.length then []
  else 46 :: afterDot.reverse

/-! ## Conversion mode and the input-file filter -/

/-- `enum class ConversionMode` (source line 25). -/
inductive ConversionMode
  | ToHeic
  | ToJpeg
deriving DecidableEq, Repr

/-- The extension list of the `ToHeic` branch of `IsSupportedInputFile`
(source line 284). -/
def supportedExtensions : List WStr :=
  [wstr ".jpg", wstr ".jpeg", wstr ".png", wstr ".bmp", wstr ".tiff", wstr ".gif"]

/-- `IsSupportedInputFile` (source lines 277–296): extract the extension,
reject if empty, lowercase it, then compare against the mode's accepted
extensions.  The `ToHeic` branch loops over `supportedExtensions` with an
early return; the `ToJpeg` branch compares against `".heic"` alone. -/
def IsSupportedInputFile (fileName : WStr) (mode : ConversionMode) : Bool :=
  let extension := findExtension fileName
  if extension.isEmpty then false
  else
    let extension := lowerStr extension
    match mode with
    | ConversionMode.ToHeic => supportedExtensions.any (fun ext => extension = ext)
    | ConversionMode.ToJpeg => extension = wstr ".heic"

/-! ## Command-line parsing (`wmain`, source lines 146–169) -/

/-- Decimal digit test (codes 48–57). -/
def digit? (c : Nat) : Bool := 48 ≤ c && c ≤ 57

/-- Value of a digit string, most significant first. -/
def digitsVal (l : WStr) : Nat :=
  l.foldl (fun acc c => acc * 10 + (c - 48)) 0

/-- Model of `std::stof` for plain decimal inputs: optional leading
whitespace, optional sign, an integer part and an optional fractional part,
at least one digit in total; trailing junk is ignored, exactly as `stof`
parses the longest valid prefix.  `none` models `stof` throwing
(`std::invalid_argument`), which the source catches (line 158).  Exponent,
hex and infinity forms are outside the inputs the claims exercise and are
not modelled.  The result is an exact rational; at the claims' concrete
inputs (0, 100, 150) the float computation in the source is also exact. -/
def stofModel (s : WStr) : Option ℚ :=
  let s1 := s.dropWhile (fun c => c = 32 || c = 9 || c = 10)
  let signRest : Bool × WStr :=
    match s1 with
    | 45 :: rest => (true, rest)
    | 43 :: rest => (false, rest)
    | _ => (false, s1)
  let neg := signRest.1
  let s2 := signRest.2
  let intPart := s2.takeWhile digit?
  let s3 := s2.dropWhile digit?
  let fracPart :=
    match s3 with
    | 46 :: rest => rest.takeWhile digit?
    | _ => []
  if intPart.isEmpty && fracPart.isEmpty then none
  else
    let mag : ℚ := (digitsVal intPart : ℚ) + (digitsVal fracPart : ℚ) / (10 ^ fracPart.length)
    some (if neg then -mag else mag)

/-- The warnings `wmain` prints while parsing and enumerating. -/
inductive Warning
  | qualityOutOfRange
  | qualityInvalid
  | inputPathNotFound (path : WStr)
  | unsupportedInputFile (path : WStr)
deriving DecidableEq, Repr

/-- The mutable locals of `wmain`'s parse loop (source lines 148–151),
plus the warnings printed while parsing. -/
structure ParseState where
  inputPaths : List WStr
  outputDir : WStr
  quality : ℚ
  mode : ConversionMode
  warnings : List Warning
deriving DecidableEq, Repr

/-- Initial values: no paths, empty output dir, `quality = -1.0f`,
default mode `ToHeic`. -/
def initParseState : ParseState :=
  { inputPaths := [], outputDir := [], quality := -1,
    mode := ConversionMode.ToHeic, warnings := [] }

/-- `argv[i+1][0] != L'-'`: an argument is consumed by the `-i` value loop
when its first character is not a dash (an empty argument reads its null
terminator, which is also not a dash). -/
def startsDash (a : WStr) : Bool := a.head? = some 45

/-- The quality branch (source line 158): `stof(arg) / 100`, warn and reset
to `-1` when the parse throws or the fraction leaves `[0,1]`. -/
def applyQualityArg (st : ParseState) (v : WStr) : ParseState :=
  match stofModel v with
  | some q =>
    let f := q / 100
    if f < 0 ∨ f > 1 then
      { st with quality := -1, warnings := st.warnings ++ [Warning.qualityOutOfRange] }
    else
      { st with quality := f }
  | none => { st with quality := -1, warnings := st.warnings ++ [Warning.qualityInvalid] }

/-- The guard of `ConvertImage` (source line 332): the `ImageQuality`
property is written to the encoder exactly when
`quality >= 0.0f && quality <= 1.0f`, so the `-1` sentinel (out-of-range,
non-numeric, or no `-q` flag at all) leaves the codec default in force. -/
def qualityApplied (quality : ℚ) : Bool := 0 ≤ quality && quality ≤ 1

/-- The `--to` branch (source lines 160–168): lowercase the value and switch
to `ToJpeg` exactly when it reads `jpeg` or `jpg`; otherwise leave the mode
unchanged, silently. -/
def applyToArg (st : ParseState) (v : WStr) : ParseState :=
  let format := lowerStr v
  if format = wstr "jpeg" ∨ format = wstr "jpg" then
    { st with mode := ConversionMode.ToJpeg }
  else st

/-- `wmain`'s argument loop (source lines 153–169), fuelled so that it is
structurally recursive (every recursive call moves to a strictly shorter
argument list, so fuel equal to the list length never runs out; the
fuel-exhaustion branch is unreachable).  Returns `none` when `-h`/`--help`
is hit (the program prints help and returns 0 immediately).  `-i` consumes
following arguments until one starts with a dash; `-o`, `-q` and `--to`
each consume one following argument when present and are ignored when
trailing. -/
def parseLoopF : Nat → List WStr → ParseState → Option ParseState
  | _, [], st => some st
  | 0, _ :: _, st => some st
  | fuel + 1, a :: rest, st =>
    if a = wstr "-h" ∨ a = wstr "--help" then none
    else if a = wstr "-i" ∨ a = wstr "--input" then
      parseLoopF fuel (rest.dropWhile (fun x => ¬ startsDash x))
        { st with inputPaths := st.inputPaths ++ rest.takeWhile (fun x => ¬ startsDash x) }
    else if a = wstr "-o" ∨ a = wstr "--output" then
      match rest with
      | v :: rest' => parseLoopF fuel rest' { st with outputDir := v }
      | [] => some st
    else if a = wstr "-q" ∨ a = wstr "--quality" then
      match rest with
      | v :: rest' => parseLoopF fuel rest' (applyQualityArg st v)
      | [] => some st
    else if a = wstr "--to" then
      match rest with
      | v :: rest' => parseLoopF fuel rest' (applyToArg st v)
      | [] => some st
    else parseLoopF fuel rest st

/-- The argument loop at its actual fuel. -/
def parseLoop (args : List WStr) (st : ParseState) : Option ParseState :=
  parseLoopF args.length args st

/-! ## HRESULTs and the worker's per-task finalize protocol
(source lines 62–123) -/

/-- An `HRESULT` is a signed 32-bit value; `SUCCEEDED(hr)` is `hr >= 0`. -/
def SUCCEEDED (hr : Int) : Bool := 0 ≤ hr

/-- `E_ACCESSDENIED = 0x80070005` read as a signed 32-bit value. -/
def E_ACCESSDENIED : Int := (0x80070005 : Int) - 2 ^ 32

/-- `WINCODEC_ERR_BADHEADER = 0x88982F61` read as a signed 32-bit value. -/
def WINCODEC_ERR_BADHEADER : Int := (0x88982F61 : Int) - 2 ^ 32

/-- Win32 `ERROR_ACCESS_DENIED` (5), the code `GetLastError` reports when
`MoveFileW` hits a permission conflict. -/
def ERROR_ACCESS_DENIED : Nat := 5

/-- Win32 `ERROR_DISK_FULL` (112). -/
def ERROR_DISK_FULL : Nat := 112

/-- The `HRESULT_FROM_WIN32` macro: 0 stays 0, other Win32 codes move to
facility 7 with the severity bit set, read as signed 32-bit. -/
def HRESULT_FROM_WIN32 (x : Nat) : Int :=
  if x = 0 then 0 else ((0x80070000 + x % 2 ^ 16 : Int)) - 2 ^ 32

/-- The status strings the worker builds (source lines 81–104), one
constructor per distinct message. -/
inductive StatusMsg
  | ok
  | permissionDeniedToFinalize
  | moveError (code : Nat)
  | permissionDenied
  | diskFull
  | corruptInputFile
  | unknownCode (hr : Int)
deriving DecidableEq, Repr

/-- The filesystem calls the worker makes while finalizing a task, in
program order.  `finalOut` is `finalOutPath`, `tempOut` is `tempOutPath`. -/
inductive FsAction
  | deleteFinalOut
  | moveTempToFinal
  | deleteTempOut
deriving DecidableEq, Repr

/-- The environment one task's finalize code observes: the `HRESULT` of
`ConvertImage`, whether `MoveFileW` succeeds, and the `GetLastError` value
after a failed move. -/
structure TaskEnv where
  hr : Int
  moveOk : Bool
  lastError : Nat
deriving DecidableEq, Repr

/-- What one task produces: the `final_success` flag, the status message,
and the ordered filesystem actions. -/
structure TaskResult where
  final_success : Bool
  status_message : StatusMsg
  actions : List FsAction
deriving DecidableEq, Repr

/-- The worker's per-task finalize and classification code (source lines
74–106), translated branch for branch.  On `SUCCEEDED(hr)`: delete any file
at the final path, move the temp file over it; a failed move is classified
by `GetLastError` and the orphaned temp file is deleted.  On failure:
classify `hr` into permission-denied / disk-full / corrupt-input / unknown
and delete the partial temp file. -/
def finalizeTask (env : TaskEnv) : TaskResult :=
  if SUCCEEDED env.hr then
    if env.moveOk then
      { final_success := true, status_message := StatusMsg.ok,
        actions := [FsAction.deleteFinalOut, FsAction.moveTempToFinal] }
    else if env.lastError = ERROR_ACCESS_DENIED then
      { final_success := false, status_message := StatusMsg.permissionDeniedToFinalize,
        actions := [FsAction.deleteFinalOut, FsAction.moveTempToFinal, FsAction.deleteTempOut] }
    else
      { final_success := false, status_message := StatusMsg.moveError env.lastError,
        actions := [FsAction.deleteFinalOut, FsAction.moveTempToFinal, FsAction.deleteTempOut] }
  else
    if env.hr = E_ACCESSDENIED then
      { final_success := false, status_message := StatusMsg.permissionDenied,
        actions := [FsAction.deleteTempOut] }
    else if env.hr = HRESULT_FROM_WIN32 ERROR_DISK_FULL then
      { final_success := false, status_message := StatusMsg.diskFull,
        actions := [FsAction.deleteTempOut] }
    else if env.hr = WINCODEC_ERR_BADHEADER then
      { final_success := false, status_message := StatusMsg.corruptInputFile,
        actions := [FsAction.deleteTempOut] }
    else
      { final_success := false, status_message := StatusMsg.unknownCode env.hr,
        actions := [FsAction.deleteTempOut] }

/-! ## Input enumeration and `wmain` control flow
(source lines 130–223) -/

/-- What `GetFileAttributesW` / `FindFirstFileW` report for an input path:
missing, a directory (with the non-directory entries the `FindNextFileW`
loop yields, in enumeration order), or a plain file. -/
inductive PathInfo
  | notFound
  | dir (entries : List WStr)
  | file
deriving Repr

/-- The enumeration loop body (source lines 190–203) for one input path:
a missing path warns and is skipped; a directory's file entries are
filtered by `IsSupportedInputFile` on `path ++ "\\" ++ name` with no
warning for the unsupported ones; a plain file is queued if supported and
otherwise warned about. -/
def enumerateOne (info : WStr → PathInfo) (mode : ConversionMode)
    (acc : List WStr × List Warning) (path : WStr) :
    List WStr × List Warning :=
  match info path with
  | PathInfo.notFound => (acc.1, acc.2 ++ [Warning.inputPathNotFound path])
  | PathInfo.dir entries =>
    (acc.1 ++ (entries.filterMap (fun name =>
      let fullPath := path ++ 92 :: name
      if IsSupportedInputFile fullPath mode then some fullPath else none)), acc.2)
  | PathInfo.file =>
    if IsSupportedInputFile path mode then (acc.1 ++ [path], acc.2)
    else (acc.1, acc.2 ++ [Warning.unsupportedInputFile path])

/-- The whole enumeration loop: fold `enumerateOne` over the input paths,
producing `filesToProcess` and the warnings printed along the way. -/
def enumerate (info : WStr → PathInfo) (mode : ConversionMode)
    (paths : List WStr) : List WStr × List Warning :=
  paths.foldl (enumerateOne info mode) ([], [])

/-- The environment `wmain` runs against: whether `CoInitializeEx`
succeeds, whether the HEVC capability probe passes, the arguments after the
program name, whether `GetFileAttributesW` on the output directory returns
`INVALID_FILE_ATTRIBUTES`, whether `CreateDirectoryW` succeeds, and what
each input path resolves to. -/
structure SysEnv where
  comOk : Bool
  hevcOk : Bool
  argv : List WStr
  outputDirMissing : WStr → Bool
  createDirOk : WStr → Bool
  pathInfo : WStr → PathInfo

/-- The observables of a `wmain` run: the process exit code, whether
`ShowHelp` was called, the warnings printed, and the queued
`filesToProcess` (empty when the run exits before or at enumeration). -/
structure WmainResult where
  exitCode : Nat
  helpShown : Bool
  warnings : List Warning
  queued : List WStr

/-- `wmain` (source lines 130–223), translated decision for decision:
COM-init failure → 1; failed HEVC probe → 1; `argc <= 1` → help + 1;
`-h`/`--help` during parsing → help + 0; missing input or output → help +
1; output dir absent and not creatable → 1; no supported files → 0;
otherwise the run proceeds and returns 0 regardless of per-file results. -/
def wmainModel (env : SysEnv) : WmainResult :=
  if ¬ env.comOk then
    { exitCode := 1, helpShown := false, warnings := [], queued := [] }
  else if ¬ env.hevcOk then
    { exitCode := 1, helpShown := false, warnings := [], queued := [] }
  else if env.argv.isEmpty then
    { exitCode := 1, helpShown := true, warnings := [], queued := [] }
  else
    match parseLoop env.argv initParseState with
    | none => { exitCode := 0, helpShown := true, warnings := [], queued := [] }
    | some st =>
      if st.inputPaths.isEmpty ∨ st.outputDir.isEmpty then
        { exitCode := 1, helpShown := true, warnings := st.warnings, queued := [] }
      else if env.outputDirMissing st.outputDir ∧ ¬ env.createDirOk st.outputDir then
        { exitCode := 1, helpShown := false, warnings := st.warnings, queued := [] }
      else
        let enumerated := enumerate env.pathInfo st.mode st.inputPaths
        if enumerated.1.isEmpty then
          { exitCode := 0, helpShown := false,
            warnings := st.warnings ++ enumerated.2, queued := [] }
        else
          { exitCode := 0, helpShown := false,
            warnings := st.warnings ++ enumerated.2, queued := enumerated.1 }

/-! ## The worker pool as a transition system
(source lines 39–127 and 212–218)

Each worker loops: `task_index->fetch_add(1)`; stop if the fetched index is
out of range; otherwise convert, finalize, and bump exactly one of the two
atomic counters.  The shared mutable state is only the cursor and the two
counters, each touched by single atomic read-modify-write operations, so
every interleaving of the pool is a serialization of those atomic steps.
We model it as a small-step system: a schedule is a list of worker ids, and
each scheduled worker performs its next atomic step (a fetch, or the
counter update for the task it holds).  `fetched` is a ghost log of every
value `fetch_add` ever returned. -/

/-- Where a worker is in its loop: about to fetch, holding a claimed task,
or broken out of the loop. -/
inductive WPhase
  | idle
  | working (idx : Nat)
  | stopped
deriving DecidableEq, Repr

/-- `isWorking p` iff the worker holds a claimed, unrecorded task. -/
def isWorking : WPhase → Bool
  | WPhase.idle => false
  | WPhase.working _ => true
  | WPhase.stopped => false

/-- Shared state of the pool: the atomic cursor, the ghost log of fetched
values, each worker's phase, and the two atomic counters. -/
structure PoolState where
  cursor : Nat
  fetched : List Nat
  phases : List WPhase
  succ : Nat
  fail : Nat
deriving DecidableEq, Repr

/-- `wmain` starts the pool with cursor 0, both counters 0, and `w` workers
(source lines 212–217). -/
def initPool (w : Nat) : PoolState :=
  { cursor := 0, fetched := [], phases := List.replicate w WPhase.idle,
    succ := 0, fail := 0 }

/-- One atomic step of worker `w` against a queue of `n` tasks, where
`envOf i` is what task `i`'s conversion and finalize observe.  An idle
worker performs `fetch_add`: below `n` it takes the task, otherwise it
breaks out of the loop (source lines 57–60).  A working worker records its
outcome, bumping exactly one counter (source lines 118–123).  A stopped or
nonexistent worker does nothing. -/
def stepWorker (n : Nat) (envOf : Nat → TaskEnv) (s : PoolState) (w : Nat) : PoolState :=
  match s.phases[w]? with
  | some WPhase.idle =>
    let idx := s.cursor
    if idx < n then
      { s with cursor := idx + 1, fetched := s.fetched ++ [idx],
               phases := s.phases.set w (WPhase.working idx) }
    else
      { s with cursor := idx + 1, fetched := s.fetched ++ [idx],
               phases := s.phases.set w WPhase.stopped }
  | some (WPhase.working idx) =>
    if (finalizeTask (envOf idx)).final_success then
      { s with phases := s.phases.set w WPhase.idle, succ := s.succ + 1 }
    else
      { s with phases := s.phases.set w WPhase.idle, fail := s.fail + 1 }
  | _ => s

/-- Run the pool along a schedule (an arbitrary interleaving of the
workers' atomic steps). -/
def runPool (n : Nat) (envOf : Nat → TaskEnv) (sched : List Nat) (s : PoolState) : PoolState :=
  sched.foldl (stepWorker n envOf) s

/-- All workers have broken out of their loops (the state after
`t.join()` on every thread, source line 218). -/
def allStopped (s : PoolState) : Bool :=
  s.phases.all (fun p => p = WPhase.stopped)

/-- The pool invariant: the ghost log is exactly `range cursor` (every
fetched value is distinct and consecutive), the counters plus the tasks
currently in flight account for exactly the claimed tasks, and any stopped
worker witnesses that the cursor has passed `n`. -/
def PoolInv (n : Nat) (s : PoolState) : Prop :=
  s.fetched = List.range s.cursor ∧
  s.succ + s.fail + s.phases.countP isWorking = min s.cursor n ∧
  (∀ p ∈ s.phases, p = WPhase.stopped → n < s.cursor)

/-! ### Concrete environments used to exercise the theorems -/

/-- A task environment on which `ConvertImage` and the subsequent
`MoveFileW` both succeed. -/
def witEnvTask : Nat → TaskEnv := fun _ => { hr := 0, moveOk := true, lastError := 0 }

/-- A task environment on which `ConvertImage` fails with a generic error. -/
def witEnvTaskFail : Nat → TaskEnv := fun _ => { hr := -1, moveOk := false, lastError := 0 }

/-- A pool in which worker 0 holds task 0. -/
def witPool : PoolState :=
  { cursor := 1, fetched := [0], phases := [WPhase.working 0], succ := 0, fail := 0 }

/-- A healthy system invoked with no arguments at all (`argc <= 1`). -/
def envNoArgs : SysEnv :=
  { comOk := true, hevcOk := true, argv := [],
    outputDirMissing := fun _ => false, createDirOk := fun _ => true,
    pathInfo := fun _ => PathInfo.notFound }

/-- A healthy system invoked with `-h`. -/
def envHelp : SysEnv :=
  { comOk := true, hevcOk := true, argv := [wstr "-h"],
    outputDirMissing := fun _ => false, createDirOk := fun _ => true,
    pathInfo := fun _ => PathInfo.notFound }

/-- A healthy system invoked as `-i in -o out` where directory `in` holds
`a.jpg`, `b.png` and `c.heic` (the spec's enumeration scenario). -/
def envC8 : SysEnv :=
  { comOk := true, hevcOk := true,
    argv := [wstr "-i", wstr "in", wstr "-o", wstr "out"],
    outputDirMissing := fun _ => false, createDirOk := fun _ => true,
    pathInfo := fun p =>
      if p = wstr "in" then PathInfo.dir [wstr "a.jpg", wstr "b.png", wstr "c.heic"]
      else PathInfo.notFound }

/-! ## Supporting lemmas -/

theorem countP_set_eq (p : α → Bool) (l : List α) (i : Nat) (a b : α)
    (h : l[i]? = some a) :
    (l.set i b).countP p + (if p a then 1 else 0) =
      l.countP p + (if p b then 1 else 0) := by
  induction l generalizing i with
  | nil => simp at h
  | cons c t ih =>
    cases i with
    | zero =>
      simp only [List.getElem?_cons_zero, Option.some.injEq] at h
      subst h
      simp only [List.set_cons_zero, List.countP_cons]
      omega
    | succ j =>
      simp only [List.getElem?_cons_succ] at h
      simp only [List.set_cons_succ, List.countP_cons]
      have := ih j h
      omega

theorem poolInv_init (n w : Nat) : PoolInv n (initPool w) := by
  refine ⟨by simp [initPool], ?_, ?_⟩
  · have hc : List.countP isWorking (List.replicate w WPhase.idle) = 0 := by
      apply List.countP_eq_zero.mpr
      intro a ha
      rw [List.eq_of_mem_replicate ha]
      simp [isWorking]
    dsimp only [initPool]
    rw [hc]
    omega
  · intro p hp hstop
    dsimp only [initPool] at hp
    rw [List.eq_of_mem_replicate hp] at hstop
    exact absurd hstop (by simp)

theorem poolInv_step (n : Nat) (envOf : Nat → TaskEnv) (s : PoolState) (w : Nat)
    (h : PoolInv n s) : PoolInv n (stepWorker n envOf s w) := by
  obtain ⟨hlog, hcount, hstop⟩ := h
  unfold stepWorker
  cases hw : s.phases[w]? with
  | none => exact ⟨hlog, hcount, hstop⟩
  | some phase =>
    cases phase with
    | idle =>
      by_cases hlt : s.cursor < n
      · simp only [hlt, if_true]
        refine ⟨?_, ?_, ?_⟩
        · dsimp only
          simp [hlog, List.range_succ]
        · have hset := countP_set_eq isWorking s.phases w WPhase.idle
            (WPhase.working s.cursor) hw
          simp only [isWorking] at hset
          simp only [if_pos, if_neg, Bool.false_eq_true, not_false_eq_true] at hset
          dsimp only
          omega
        · intro p hp hps
          dsimp only at hp ⊢
          rcases List.mem_or_eq_of_mem_set hp with hmem | rfl
          · exact Nat.lt_succ_of_lt (hstop p hmem hps)
          · exact absurd hps (by simp)
      · simp only [hlt, if_false]
        refine ⟨?_, ?_, ?_⟩
        · dsimp only
          simp [hlog, List.range_succ]
        · have hset := countP_set_eq isWorking s.phases w WPhase.idle
            WPhase.stopped hw
          simp only [isWorking] at hset
          simp only [if_neg, Bool.false_eq_true, not_false_eq_true] at hset
          dsimp only
          omega
        · intro p hp hps
          dsimp only at hp ⊢
          rcases List.mem_or_eq_of_mem_set hp with hmem | rfl
          · exact Nat.lt_succ_of_lt (hstop p hmem hps)
          · omega
    | working idx =>
      have hset := countP_set_eq isWorking s.phases w (WPhase.working idx) WPhase.idle hw
      simp only [isWorking] at hset
      simp only [if_pos, if_neg, Bool.false_eq_true, not_false_eq_true] at hset
      have hstop' : ∀ p ∈ s.phases.set w WPhase.idle, p = WPhase.stopped → n < s.cursor := by
        intro p hp hps
        rcases List.mem_or_eq_of_mem_set hp with hmem | rfl
        · exact hstop p hmem hps
        · exact absurd hps (by simp)
      cases hfs : (finalizeTask (envOf idx)).final_success
      · simp only [hfs, Bool.false_eq_true, if_false]
        exact ⟨hlog, by dsimp only; omega, hstop'⟩
      · simp only [hfs, if_true]
        exact ⟨hlog, by dsimp only; omega, hstop'⟩
    | stopped => exact ⟨hlog, hcount, hstop⟩

theorem poolInv_run (n : Nat) (envOf : Nat → TaskEnv) (sched : List Nat)
    (s : PoolState) (h : PoolInv n s) : PoolInv n (runPool n envOf sched s) := by
  induction sched generalizing s with
  | nil => exact h
  | cons w rest ih => exact ih _ (poolInv_step n envOf s w h)

theorem phases_length_step (n : Nat) (envOf : Nat → TaskEnv) (s : PoolState) (w : Nat) :
    (stepWorker n envOf s w).phases.length = s.phases.length := by
  unfold stepWorker
  cases hw : s.phases[w]? with
  | none => rfl
  | some phase =>
    cases phase with
    | idle =>
      by_cases hlt : s.cursor < n <;> simp [hlt]
    | working idx =>
      cases hfs : (finalizeTask (envOf idx)).final_success <;> simp [hfs]
    | stopped => rfl

theorem phases_length_run (n : Nat) (envOf : Nat → TaskEnv) (sched : List Nat)
    (s : PoolState) :
    (runPool n envOf sched s).phases.length = s.phases.length := by
  induction sched generalizing s with
  | nil => rfl
  | cons w rest ih => exact (ih _).trans (phases_length_step n envOf s w)

theorem getElem?_set_of_lt (l : List WPhase) (i : Nat) (b : WPhase) (h : i < l.length) :
    (l.set i b)[i]? = some b := by
  rw [List.getElem?_set_self']
  simp [h]

theorem toLowerChar_idem (c : Nat) : toLowerChar (toLowerChar c) = toLowerChar c := by
  simp only [toLowerChar]
  by_cases h : 65 ≤ c ∧ c ≤ 90
  · rw [if_pos h, if_neg (by omega)]
  · rw [if_neg h, if_neg h]

theorem isSep_toLowerChar (c : Nat) : isSep (toLowerChar c) = isSep c := by
  rw [Bool.eq_iff_iff]
  simp only [isSep, toLowerChar, Bool.or_eq_true, decide_eq_true_eq]
  split
  · omega
  · exact Iff.rfl

theorem ne46_toLowerChar (c : Nat) : (decide (toLowerChar c ≠ 46)) = (decide (c ≠ 46)) := by
  rw [Bool.eq_iff_iff]
  simp only [toLowerChar, decide_eq_true_eq]
  split
  · omega
  · exact Iff.rfl

theorem fileNamePart_lowerStr (s : WStr) :
    fileNamePart (lowerStr s) = lowerStr (fileNamePart s) := by
  simp only [fileNamePart, lowerStr]
  rw [← List.map_reverse, List.takeWhile_map]
  have hpred : ((fun c => decide ¬ isSep c = true) ∘ toLowerChar) =
      (fun c => decide ¬ isSep c = true) := by
    funext c
    simp [Function.comp, isSep_toLowerChar]
  rw [hpred, ← List.map_reverse]

theorem findExtension_lowerStr (s : WStr) :
    findExtension (lowerStr s) = lowerStr (findExtension s) := by
  simp only [findExtension, fileNamePart_lowerStr]
  rw [show lowerStr (fileNamePart s) = (fileNamePart s).map toLowerChar from rfl]
  rw [← List.map_reverse, List.takeWhile_map]
  have hpred : ((fun c => decide (c ≠ 46)) ∘ toLowerChar) = (fun c => decide (c ≠ 46)) := by
    funext c
    simp only [Function.comp]
    exact ne46_toLowerChar c
  rw [hpred]
  simp only [List.length_map]
  split
  · simp [lowerStr]
  · simp [lowerStr, List.map_reverse, show toLowerChar 46 = 46 from by decide]

theorem lowerStr_idem (s : WStr) : lowerStr (lowerStr s) = lowerStr s := by
  simp only [lowerStr, List.map_map]
  congr 1
  funext c
  exact toLowerChar_idem c

/-! ## Claim theorems -/

/-- C1: repeated invocation of the claim-next operation (the atomic
`fetch_add` on the shared cursor) never hands out a fetched value twice
under any interleaving; once every worker has stopped, each index in
`[0, n)` was fetched exactly once; a fetch at or beyond `n` turns the
claiming worker into a stopped worker; and a stopped worker performs no
further steps. -/
theorem claim_next_unique_and_exhaustion (n w : Nat) (envOf : Nat → TaskEnv)
    (sched : List Nat) :
    (∀ i : Nat, (runPool n envOf sched (initPool w)).fetched.count i ≤ 1) ∧
    (0 < w → allStopped (runPool n envOf sched (initPool w)) = true →
      ∀ i, i < n → (runPool n envOf sched (initPool w)).fetched.count i = 1) ∧
    (∀ (s : PoolState) (w' : Nat), s.phases[w']? = some WPhase.idle → n ≤ s.cursor →
      (stepWorker n envOf s w').phases[w']? = some WPhase.stopped) ∧
    (∀ (s : PoolState) (w' : Nat), s.phases[w']? = some WPhase.stopped →
      stepWorker n envOf s w' = s) := by
  obtain ⟨hlog, hcount, hstop⟩ := poolInv_run n envOf sched (initPool w) (poolInv_init n w)
  refine ⟨?_, ?_, ?_, ?_⟩
  · intro i
    rw [hlog]
    exact List.nodup_iff_count_le_one.mp (List.nodup_range _) i
  · intro hw hall i hi
    have hlen : (runPool n envOf sched (initPool w)).phases.length = w := by
      rw [phases_length_run]
      simp [initPool]
    have hne : (runPool n envOf sched (initPool w)).phases ≠ [] := by
      intro hcon
      rw [hcon] at hlen
      simp at hlen
      omega
    obtain ⟨p, hp⟩ := List.exists_mem_of_ne_nil _ hne
    have hps : p = WPhase.stopped := of_decide_eq_true (List.all_eq_true.mp hall p hp)
    have hn : n < (runPool n envOf sched (initPool w)).cursor := hstop p hp hps
    rw [hlog]
    exact List.count_eq_one_of_mem (List.nodup_range _) (List.mem_range.mpr (by omega))
  · intro s w' hw' hcur
    have hlt : w' < s.phases.length := (List.getElem?_eq_some.mp hw').1
    simp only [stepWorker, hw']
    rw [if_neg (by omega)]
    exact getElem?_set_of_lt _ _ _ hlt
  · intro s w' hw'
    simp only [stepWorker, hw']

/-- C1 witness: a queue of two tasks drained by one worker along the
schedule `[0,0,0,0,0]` stops after fetching `0, 1, 2`, and index 1 was
fetched exactly once. -/
theorem claim_next_unique_witness :
    0 < 1 ∧ allStopped (runPool 2 witEnvTask [0, 0, 0, 0, 0] (initPool 1)) = true ∧ 1 < 2 ∧
      (runPool 2 witEnvTask [0, 0, 0, 0, 0] (initPool 1)).fetched.count 1 = 1 :=
  ⟨by decide, by decide, by decide,
    (claim_next_unique_and_exhaustion 2 1 witEnvTask [0, 0, 0, 0, 0]).2.1
      (by decide) (by decide) 1 (by decide)⟩

/-- C2: once every worker has stopped (all threads joined), the success
counter plus the failure counter equals the number of queued tasks `n`,
for any `n`, any worker count `w ≥ 1`, any task outcomes and any
interleaving: every claimed task bumped exactly one of the two counters
exactly once. -/
theorem counters_sum_to_task_count (n w : Nat) (envOf : Nat → TaskEnv)
    (sched : List Nat) (hw : 0 < w)
    (hall : allStopped (runPool n envOf sched (initPool w)) = true) :
    (runPool n envOf sched (initPool w)).succ +
      (runPool n envOf sched (initPool w)).fail = n := by
  obtain ⟨hlog, hcount, hstop⟩ := poolInv_run n envOf sched (initPool w) (poolInv_init n w)
  have hzero : (runPool n envOf sched (initPool w)).phases.countP isWorking = 0 := by
    apply List.countP_eq_zero.mpr
    intro p hp
    have hps : p = WPhase.stopped := of_decide_eq_true (List.all_eq_true.mp hall p hp)
    rw [hps]
    simp [isWorking]
  have hlen : (runPool n envOf sched (initPool w)).phases.length = w := by
    rw [phases_length_run]
    simp [initPool]
  have hne : (runPool n envOf sched (initPool w)).phases ≠ [] := by
    intro hcon
    rw [hcon] at hlen
    simp at hlen
    omega
  obtain ⟨p, hp⟩ := List.exists_mem_of_ne_nil _ hne
  have hps : p = WPhase.stopped := of_decide_eq_true (List.all_eq_true.mp hall p hp)
  have hn : n < (runPool n envOf sched (initPool w)).cursor := hstop p hp hps
  omega

/-- C2 witness: one failing task drained by two workers along the schedule
`[0,1,0,0]`; after both stop, `succ + fail = 1`. -/
theorem counters_sum_witness :
    0 < 2 ∧ allStopped (runPool 1 witEnvTaskFail [0, 1, 0, 0] (initPool 2)) = true ∧
      (runPool 1 witEnvTaskFail [0, 1, 0, 0] (initPool 2)).succ +
        (runPool 1 witEnvTaskFail [0, 1, 0, 0] (initPool 2)).fail = 1 :=
  ⟨by decide, by decide,
    counters_sum_to_task_count 1 2 witEnvTaskFail [0, 1, 0, 0] (by decide) (by decide)⟩

/-- C3: when `ConvertImage` succeeds, the worker first deletes any
pre-existing file at the final output path and then moves the temporary
file onto it; a successful move yields `final_success` with status `OK`,
and a failed move yields failure with status permission-denied (when
`GetLastError` is `ERROR_ACCESS_DENIED`) or the numeric move-error code,
followed by deletion of the orphaned temporary file. -/
theorem codec_success_finalize (env : TaskEnv) (h : SUCCEEDED env.hr = true) :
    (env.moveOk = true →
      finalizeTask env =
        { final_success := true, status_message := StatusMsg.ok,
          actions := [FsAction.deleteFinalOut, FsAction.moveTempToFinal] }) ∧
    (env.moveOk = false →
      finalizeTask env =
        { final_success := false,
          status_message :=
            if env.lastError = ERROR_ACCESS_DENIED then StatusMsg.permissionDeniedToFinalize
            else StatusMsg.moveError env.lastError,
          actions := [FsAction.deleteFinalOut, FsAction.moveTempToFinal,
                      FsAction.deleteTempOut] }) := by
  constructor
  · intro hm
    simp [finalizeTask, h, hm]
  · intro hm
    simp only [finalizeTask, h, hm, if_true, Bool.false_eq_true, if_false]
    split <;> simp_all

/-- C3 witness: a task whose conversion and move both succeed ends as
`OK` after deleting the final path and moving the temporary file. -/
theorem codec_success_finalize_witness :
    SUCCEEDED (0 : Int) = true ∧
      finalizeTask { hr := 0, moveOk := true, lastError := 0 } =
        { final_success := true, status_message := StatusMsg.ok,
          actions := [FsAction.deleteFinalOut, FsAction.moveTempToFinal] } :=
  ⟨by decide, (codec_success_finalize { hr := 0, moveOk := true, lastError := 0 }
      (by decide)).1 rfl⟩

/-- C4: when `ConvertImage` fails, the task is marked failed, the only
filesystem action is deleting the partial temporary file, the `HRESULT` is
classified into exactly one of permission-denied / disk-full /
corrupt-input / unknown-with-raw-code, and the worker then returns to the
idle phase of its loop (it claims the next index rather than aborting). -/
theorem codec_failure_classification (env : TaskEnv) (h : SUCCEEDED env.hr = false)
    (n : Nat) (envOf : Nat → TaskEnv) (s : PoolState) (w idx : Nat)
    (hw : s.phases[w]? = some (WPhase.working idx)) :
    (finalizeTask env).final_success = false ∧
    (finalizeTask env).actions = [FsAction.deleteTempOut] ∧
    (finalizeTask env).status_message =
      (if env.hr = E_ACCESSDENIED then StatusMsg.permissionDenied
       else if env.hr = HRESULT_FROM_WIN32 ERROR_DISK_FULL then StatusMsg.diskFull
       else if env.hr = WINCODEC_ERR_BADHEADER then StatusMsg.corruptInputFile
       else StatusMsg.unknownCode env.hr) ∧
    ((finalizeTask env).status_message = StatusMsg.permissionDenied ∨
     (finalizeTask env).status_message = StatusMsg.diskFull ∨
     (finalizeTask env).status_message = StatusMsg.corruptInputFile ∨
     (finalizeTask env).status_message = StatusMsg.unknownCode env.hr) ∧
    (stepWorker n envOf s w).phases[w]? = some WPhase.idle := by
  have hlt : w < s.phases.length := (List.getElem?_eq_some.mp hw).1
  have hstep : (stepWorker n envOf s w).phases[w]? = some WPhase.idle := by
    simp only [stepWorker, hw]
    cases hfs : (finalizeTask (envOf idx)).final_success
    · simp only [Bool.false_eq_true, if_false]
      exact getElem?_set_of_lt _ _ _ hlt
    · simp only [if_true]
      exact getElem?_set_of_lt _ _ _ hlt
  have hcls : finalizeTask env =
      { final_success := false,
        status_message :=
          if env.hr = E_ACCESSDENIED then StatusMsg.permissionDenied
          else if env.hr = HRESULT_FROM_WIN32 ERROR_DISK_FULL then StatusMsg.diskFull
          else if env.hr = WINCODEC_ERR_BADHEADER then StatusMsg.corruptInputFile
          else StatusMsg.unknownCode env.hr,
        actions := [FsAction.deleteTempOut] } := by
    simp only [finalizeTask, h, Bool.false_eq_true, if_false]
    split
    · rfl
    · split
      · rfl
      · split <;> rfl
  rw [hcls]
  refine ⟨rfl, rfl, rfl, ?_, hstep⟩
  split
  · left
    rfl
  · split
    · right
      left
      rfl
    · split
      · right
        right
        left
        rfl
      · right
        right
        right
        rfl

/-- C4 witness: a task failing with `E_ACCESSDENIED` is marked failed and
its worker (holding task 0 in `witPool`) returns to the idle phase. -/
theorem codec_failure_classification_witness :
    SUCCEEDED E_ACCESSDENIED = false ∧
      (finalizeTask { hr := E_ACCESSDENIED, moveOk := false, lastError := 0 }).final_success
        = false ∧
      (stepWorker 1 witEnvTaskFail witPool 0).phases[0]? = some WPhase.idle :=
  ⟨by decide,
    (codec_failure_classification { hr := E_ACCESSDENIED, moveOk := false, lastError := 0 }
      (by decide) 1 witEnvTaskFail witPool 0 0 rfl).1,
    (codec_failure_classification { hr := E_ACCESSDENIED, moveOk := false, lastError := 0 }
      (by decide) 1 witEnvTaskFail witPool 0 0 rfl).2.2.2.2⟩

/-- C5: the input filter accepts a file in to-HEIC mode iff its extension
(after the lowercasing the filter applies) is one of `.jpg`, `.jpeg`,
`.png`, `.bmp`, `.tiff`, `.gif`, and in to-JPEG mode iff that extension is
`.heic`; a file with no extension is rejected in both modes. -/
theorem input_filter_extension_sets (f : WStr) :
    (IsSupportedInputFile f ConversionMode.ToHeic = true ↔
      lowerStr (findExtension f) ∈ supportedExtensions) ∧
    (IsSupportedInputFile f ConversionMode.ToJpeg = true ↔
      lowerStr (findExtension f) = wstr ".heic") ∧
    (findExtension f = [] →
      IsSupportedInputFile f ConversionMode.ToHeic = false ∧
      IsSupportedInputFile f ConversionMode.ToJpeg = false) := by
  by_cases h : (findExtension f).isEmpty
  · have he : findExtension f = [] := by rwa [List.isEmpty_iff] at h
    have h1 : ∀ m, IsSupportedInputFile f m = false := by
      intro m
      simp [IsSupportedInputFile, h]
    refine ⟨?_, ?_, fun _ => ⟨h1 _, h1 _⟩⟩
    · rw [h1, he]
      simp only [lowerStr, List.map_nil]
      constructor
      · intro hh
        exact absurd hh (by simp)
      · intro hh
        exact absurd hh (by decide)
    · rw [h1, he]
      simp only [lowerStr, List.map_nil]
      constructor
      · intro hh
        exact absurd hh (by simp)
      · intro hh
        exact absurd hh (by decide)
  · have h1 : IsSupportedInputFile f ConversionMode.ToHeic =
        supportedExtensions.any (fun ext => lowerStr (findExtension f) = ext) := by
      simp [IsSupportedInputFile, h]
    have h2 : IsSupportedInputFile f ConversionMode.ToJpeg =
        decide (lowerStr (findExtension f) = wstr ".heic") := by
      simp [IsSupportedInputFile, h]
    refine ⟨?_, ?_, ?_⟩
    · rw [h1, List.any_eq_true]
      simp only [decide_eq_true_eq]
      constructor
      · rintro ⟨x, hx, hh⟩
        rw [hh]
        exact hx
      · intro hm
        exact ⟨_, hm, rfl⟩
    · rw [h2]
      exact decide_eq_true_iff
    · intro he
      rw [List.isEmpty_iff] at h
      exact absurd he h

/-- C5 witness: `photo.jpg` is accepted in to-HEIC mode; `noext` has no
extension and is rejected. -/
theorem input_filter_extension_sets_witness :
    IsSupportedInputFile (wstr "photo.jpg") ConversionMode.ToHeic = true ∧
      findExtension (wstr "noext") = [] ∧
      IsSupportedInputFile (wstr "noext") ConversionMode.ToHeic = false :=
  ⟨(input_filter_extension_sets (wstr "photo.jpg")).1.mpr (by decide),
    by decide,
    ((input_filter_extension_sets (wstr "noext")).2.2 (by decide)).1⟩

/-- C6: the quality argument is normalized by dividing by 100; the result
is either the `-1` codec-default sentinel or a fraction in `[0,1]` equal to
the parsed value over 100.  Quality `0` maps to fraction `0` and `100` to
`1`, both without warning; `150` and a non-numeric value each warn and
leave the sentinel, exactly the state produced by passing no `-q` flag,
and `ConvertImage` skips the `ImageQuality` property for the sentinel just
as it does by default. -/
theorem quality_normalization :
    (∀ (st : ParseState) (v : WStr), (applyQualityArg st v).quality = -1 ∨
       (0 ≤ (applyQualityArg st v).quality ∧ (applyQualityArg st v).quality ≤ 1 ∧
        ∃ q, stofModel v = some q ∧ (applyQualityArg st v).quality = q / 100)) ∧
    ((applyQualityArg initParseState (wstr "0")).quality = 0 ∧
      (applyQualityArg initParseState (wstr "0")).warnings = []) ∧
    ((applyQualityArg initParseState (wstr "100")).quality = 1 ∧
      (applyQualityArg initParseState (wstr "100")).warnings = []) ∧
    ((applyQualityArg initParseState (wstr "150")).quality = initParseState.quality ∧
      (applyQualityArg initParseState (wstr "150")).warnings = [Warning.qualityOutOfRange]) ∧
    ((applyQualityArg initParseState (wstr "abc")).quality = initParseState.quality ∧
      (applyQualityArg initParseState (wstr "abc")).warnings = [Warning.qualityInvalid]) ∧
    (qualityApplied initParseState.quality = false ∧
      qualityApplied ((applyQualityArg initParseState (wstr "150")).quality) = false ∧
      qualityApplied 0 = true ∧ qualityApplied 1 = true) := by
  have h0 : stofModel (wstr "0") = some 0 := by
    rw [show wstr "0" = [48] from rfl]
    norm_num [stofModel, digit?, digitsVal]
  have h100 : stofModel (wstr "100") = some 100 := by
    rw [show wstr "100" = [49, 48, 48] from rfl]
    norm_num [stofModel, digit?, digitsVal]
  have h150 : stofModel (wstr "150") = some 150 := by
    rw [show wstr "150" = [49, 53, 48] from rfl]
    norm_num [stofModel, digit?, digitsVal]
  have habc : stofModel (wstr "abc") = none := by
    rw [show wstr "abc" = [97, 98, 99] from rfl]
    norm_num [stofModel, digit?, digitsVal]
  refine ⟨?_, ⟨?_, ?_⟩, ⟨?_, ?_⟩, ⟨?_, ?_⟩, ⟨?_, ?_⟩, ?_, ?_, ?_, ?_⟩
  · intro st v
    simp only [applyQualityArg]
    cases hm : stofModel v with
    | none =>
      left
      rfl
    | some q =>
      dsimp only
      by_cases hr : q / 100 < 0 ∨ q / 100 > 1
      · rw [if_pos hr]
        left
        rfl
      · rw [if_neg hr]
        push_neg at hr
        right
        exact ⟨hr.1, hr.2, q, rfl, rfl⟩
  · rw [applyQualityArg, h0]
    norm_num
  · rw [applyQualityArg, h0]
    norm_num [initParseState]
  · rw [applyQualityArg, h100]
    norm_num
  · rw [applyQualityArg, h100]
    norm_num [initParseState]
  · rw [applyQualityArg, h150]
    norm_num [initParseState]
  · rw [applyQualityArg, h150]
    norm_num [initParseState]
  · rw [applyQualityArg, habc]
    rfl
  · rw [applyQualityArg, habc]
    rfl
  · norm_num [qualityApplied, initParseState]
  · rw [applyQualityArg, h150]
    norm_num [qualityApplied]
  · norm_num [qualityApplied]
  · norm_num [qualityApplied]

/-- C9: extension matching is case-insensitive — lowercasing a path never
changes whether the filter accepts it, so `A.JPG`, `b.Png` and `c.HEIC`
are accepted exactly as their lowercase counterparts are. -/
theorem extension_match_case_insensitive :
    (∀ (f : WStr) (mode : ConversionMode),
      IsSupportedInputFile (lowerStr f) mode = IsSupportedInputFile f mode) ∧
    IsSupportedInputFile (wstr "A.JPG") ConversionMode.ToHeic = true ∧
    IsSupportedInputFile (wstr "b.Png") ConversionMode.ToHeic = true ∧
    IsSupportedInputFile (wstr "c.HEIC") ConversionMode.ToJpeg = true := by
  refine ⟨?_, by decide, by decide, by decide⟩
  intro f mode
  have hie : (lowerStr (findExtension f)).isEmpty = (findExtension f).isEmpty := by
    rw [Bool.eq_iff_iff]
    simp [lowerStr, List.isEmpty_iff]
  simp only [IsSupportedInputFile, findExtension_lowerStr, hie, lowerStr_idem]

/-- C10: the `--to` value switches the mode to to-JPEG exactly when it
lowercases to `jpeg` or `jpg` (or the mode was already to-JPEG); any other
value leaves the state unchanged — same mode, no warning — and a trailing
`--to` with no value is ignored by the parse loop. -/
theorem to_flag_selects_mode (v : WStr) (st : ParseState) :
    ((applyToArg st v).mode = ConversionMode.ToJpeg ↔
      (lowerStr v = wstr "jpeg" ∨ lowerStr v = wstr "jpg" ∨
        st.mode = ConversionMode.ToJpeg)) ∧
    (applyToArg st v).warnings = st.warnings ∧
    (parseLoop [wstr "--to", v] initParseState = some (applyToArg initParseState v)) ∧
    ((lowerStr v = wstr "jpeg" ∨ lowerStr v = wstr "jpg" →
        (applyToArg st v).mode = ConversionMode.ToJpeg) ∧
      (¬(lowerStr v = wstr "jpeg" ∨ lowerStr v = wstr "jpg") →
        applyToArg st v = st)) ∧
    (parseLoop [wstr "--to"] initParseState = some initParseState) := by
  refine ⟨?_, ?_, rfl, ⟨?_, ?_⟩, rfl⟩
  · simp only [applyToArg]
    split
    · rename_i hc
      simp only [true_iff]
      tauto
    · rename_i hc
      constructor
      · intro hm
        right
        right
        exact hm
      · intro hm
        rcases hm with hm | hm | hm
        · exact absurd (Or.inl hm) hc
        · exact absurd (Or.inr hm) hc
        · exact hm
  · simp only [applyToArg]
    split <;> rfl
  · intro hc
    simp [applyToArg, hc]
  · intro hc
    simp [applyToArg, hc]

/-- C10 witness: `--to JPeG` switches to to-JPEG; `--to webp` leaves the
parse state untouched. -/
theorem to_flag_selects_mode_witness :
    (applyToArg initParseState (wstr "JPeG")).mode = ConversionMode.ToJpeg ∧
      applyToArg initParseState (wstr "webp") = initParseState :=
  ⟨(to_flag_selects_mode (wstr "JPeG") initParseState).2.2.2.1.1 (Or.inl (by decide)),
    (to_flag_selects_mode (wstr "webp") initParseState).2.2.2.1.2 (by decide)⟩

/-- C7 counterexample: invoking the program with no arguments at all on a
healthy system makes it print the help text and exit with code 1, so
"exits with code 0 when help is shown" fails as stated (the missing-argument
exit takes precedence over the help-text rule). -/
theorem help_shown_with_exit_one :
    (wmainModel envNoArgs).helpShown = true ∧ (wmainModel envNoArgs).exitCode = 1 :=
  ⟨rfl, rfl⟩

/-- C7 amended: assuming COM initialization succeeds, the exit code is 1
when the HEVC probe fails; 1 (with help shown) when no arguments are given
or when input or output is missing after parsing; 0 (with help shown) when
`-h`/`--help` is explicitly requested; 1 when the output directory is
absent and cannot be created; and 0 whenever the run reaches enumeration,
whether or not any supported file is found and regardless of per-file
results. -/
theorem exit_code_characterization (env : SysEnv) (st : ParseState)
    (hcom : env.comOk = true) :
    (env.hevcOk = false → (wmainModel env).exitCode = 1) ∧
    (env.hevcOk = true → env.argv = [] →
      (wmainModel env).exitCode = 1 ∧ (wmainModel env).helpShown = true) ∧
    (env.hevcOk = true → env.argv ≠ [] → parseLoop env.argv initParseState = none →
      (wmainModel env).exitCode = 0 ∧ (wmainModel env).helpShown = true) ∧
    (env.hevcOk = true → env.argv ≠ [] → parseLoop env.argv initParseState = some st →
      (st.inputPaths = [] ∨ st.outputDir = []) →
      (wmainModel env).exitCode = 1 ∧ (wmainModel env).helpShown = true) ∧
    (env.hevcOk = true → env.argv ≠ [] → parseLoop env.argv initParseState = some st →
      st.inputPaths ≠ [] → st.outputDir ≠ [] →
      env.outputDirMissing st.outputDir = true → env.createDirOk st.outputDir = false →
      (wmainModel env).exitCode = 1) ∧
    (env.hevcOk = true → env.argv ≠ [] → parseLoop env.argv initParseState = some st →
      st.inputPaths ≠ [] → st.outputDir ≠ [] →
      (env.outputDirMissing st.outputDir = false ∨ env.createDirOk st.outputDir = true) →
      (wmainModel env).exitCode = 0) := by
  refine ⟨?_, ?_, ?_, ?_, ?_, ?_⟩
  · intro hh
    simp [wmainModel, hcom, hh]
  · intro hh ha
    simp [wmainModel, hcom, hh, ha]
  · intro hh ha hp
    simp [wmainModel, hcom, hh, ha, hp]
  · intro hh ha hp hmiss
    simp only [wmainModel, hcom, hh, ha, hp]
    simp [ha]
    rw [if_pos hmiss]
    exact ⟨rfl, rfl⟩
  · intro hh ha hp h1 h2 hmiss hcreate
    simp only [wmainModel, hcom, hh, hp]
    simp [ha, h1, h2, hmiss, hcreate]
  · intro hh ha hp h1 h2 hok
    simp only [wmainModel, hcom, hh, hp]
    rcases hok with hok | hok
    · simp [ha, h1, h2, hok]
      split <;> rfl
    · by_cases hmiss : env.outputDirMissing st.outputDir = true
      · simp [ha, h1, h2, hmiss, hok]
        split <;> rfl
      · simp only [Bool.not_eq_true] at hmiss
        simp [ha, h1, h2, hmiss, hok]
        split <;> rfl

/-- C7 witness: on a healthy system, `-h` alone exits 0 with help shown. -/
theorem exit_code_characterization_witness :
    envHelp.comOk = true ∧ envHelp.hevcOk = true ∧ envHelp.argv ≠ [] ∧
      parseLoop envHelp.argv initParseState = none ∧
      (wmainModel envHelp).exitCode = 0 ∧ (wmainModel envHelp).helpShown = true :=
  ⟨rfl, rfl, by decide, rfl,
    (exit_code_characterization envHelp initParseState rfl).2.2.1 rfl (by decide) rfl⟩

/-- C8 counterexample: with input directory `in` holding `a.jpg`, `b.png`
and `c.heic` in to-HEIC mode, exactly the two supported files are queued —
but no warning at all is printed, so "c.heic is skipped with a warning"
fails as stated (the unsupported-file warning is only printed for files
passed directly as arguments, not for directory entries). -/
theorem unsupported_dir_entry_skipped_silently :
    (wmainModel envC8).queued = [wstr "in\\a.jpg", wstr "in\\b.png"] ∧
    (wmainModel envC8).warnings = [] ∧ (wmainModel envC8).exitCode = 0 := by
  refine ⟨?_, ?_, ?_⟩ <;> rfl

/-- C8 amended: enumerating an input directory queues exactly its
supported entries (full paths, in enumeration order) and emits no warning;
unsupported entries such as `c.heic` in to-HEIC mode are skipped
silently. -/
theorem dir_enumeration_filters_silently (info : WStr → PathInfo)
    (mode : ConversionMode) (path : WStr) (entries : List WStr)
    (h : info path = PathInfo.dir entries) :
    enumerate info mode [path] =
      (entries.filterMap (fun name =>
        if IsSupportedInputFile (path ++ 92 :: name) mode then some (path ++ 92 :: name)
        else none), []) := by
  simp [enumerate, enumerateOne, h]

/-- C8 witness: on the concrete scenario directory, enumeration queues
`in\a.jpg` and `in\b.png` (2 tasks) with an empty warning list. -/
theorem dir_enumeration_filters_silently_witness :
    envC8.pathInfo (wstr "in") = PathInfo.dir [wstr "a.jpg", wstr "b.png", wstr "c.heic"] ∧
      enumerate envC8.pathInfo ConversionMode.ToHeic [wstr "in"] =
        ([wstr "in\\a.jpg", wstr "in\\b.png"], []) :=
  ⟨rfl, by
    rw [dir_enumeration_filters_silently envC8.pathInfo ConversionMode.ToHeic (wstr "in")
      [wstr "a.jpg", wstr "b.png", wstr "c.heic"] rfl]
    decide⟩

end ImageToHeic
